import Mathlib

/-!
Shallow embedding of the client-side bookmark synchronization logic of
`smartbookmark-app` (file `src/app/bookmark-app.tsx`).

The embedding covers: the `Bookmark` record, the realtime change-feed
handler installed by `setupRealtime` (insert / update / delete events
applied to the in-memory list), the snapshot loader `loadBookmarks`,
the `sortedBookmarks` view projection, the `handleAddBookmark` command
handler (validation and URL normalization), and the absent branch of the
`onAuthStateChange` listener together with `teardownRealtime`.

JavaScript strings are modelled as Lean `String`s; `String.prototype.trim`
and `String.prototype.startsWith` are modelled by `jsTrim` and
`jsStartsWith` over the underlying character list, matching their
semantics on the character sequences that occur here.  The
`created_at` field is a timestamp string in the source, parsed to a
numeric time value by `new Date(...).getTime()` before every comparison;
it is modelled directly as that parsed integer time value.
-/

namespace SmartBookmark

/-- Bookmark record, from the `type Bookmark` declaration in
`bookmark-app.tsx`.  `created_at` is modelled as the parsed epoch time
value that the sort comparator extracts with `new Date(...).getTime()`. -/
structure Bookmark where
  id : String
  url : String
  title : String
  created_at : Int
deriving DecidableEq

/-- Realtime change-feed events delivered to the `postgres_changes`
handler in `setupRealtime`: `INSERT` and `UPDATE` carry `payload.new`
(a full record), `DELETE` carries `payload.old.id`. -/
inductive FeedEvent where
  | insert (new : Bookmark)
  | update (new : Bookmark)
  | delete (oldId : String)
deriving DecidableEq

/-- Identifiers of a list of bookmarks, in order. -/
def ids (l : List Bookmark) : List String :=
  l.map Bookmark.id

/-- First record in the list carrying the given identifier, if any. -/
def findId (l : List Bookmark) (k : String) : Option Bookmark :=
  l.find? (fun b => b.id == k)

/-- One step of the change-feed handler from `setupRealtime`:
`INSERT` appends `payload.new` to the current list unconditionally,
`DELETE` keeps the records whose id differs from `payload.old.id`,
`UPDATE` maps over the list replacing every record whose id equals
`payload.new.id` by `payload.new`. -/
def applyEvent (current : List Bookmark) : FeedEvent → List Bookmark
  | .insert n => current ++ [n]
  | .delete oldId => current.filter (fun b => b.id != oldId)
  | .update n => current.map (fun b => if b.id == n.id then n else b)

/-- Applying a sequence of feed events in delivery order. -/
def applyEvents (l : List Bookmark) (es : List FeedEvent) : List Bookmark :=
  es.foldl applyEvent l

/-- Modelled from the spec: the literal "last write per identifier wins"
map interpretation of the event log used by the testable property in
section 8 — insert and update both set their key, delete removes it. -/
def lwwStep (m : String → Option Bookmark) : FeedEvent → String → Option Bookmark
  | .insert n => fun k => if k = n.id then some n else m k
  | .update n => fun k => if k = n.id then some n else m k
  | .delete i => fun k => if k = i then none else m k

/-- Folding the literal last-write-wins interpretation over a log. -/
def lwwLog (m : String → Option Bookmark) (es : List FeedEvent) : String → Option Bookmark :=
  es.foldl lwwStep m

/-- Keyed-map interpretation of one event matching the per-event
semantics the code implements on maps: insert sets its key, update sets
its key only when the key is present (no-op otherwise), delete removes
its key. -/
def logStep (m : String → Option Bookmark) : FeedEvent → String → Option Bookmark
  | .insert n => fun k => if k = n.id then some n else m k
  | .update n =>
    match m n.id with
    | none => m
    | some _ => fun k => if k = n.id then some n else m k
  | .delete i => fun k => if k = i then none else m k

/-- Folding the keyed-map interpretation over a log. -/
def logApply (m : String → Option Bookmark) (es : List FeedEvent) : String → Option Bookmark :=
  es.foldl logStep m

/-- Guard under which one event keeps the list/map simulation: insert
events must carry an identifier absent from the current list. -/
def evGuard (l : List Bookmark) : FeedEvent → Bool
  | .insert n => (findId l n.id).isNone
  | .update _ => true
  | .delete _ => true

/-- Every insert event in the trace carries an identifier that is absent
from the list at the moment the event is applied. -/
def freshInserts (l : List Bookmark) : List FeedEvent → Bool
  | [] => true
  | e :: es => evGuard l e && freshInserts (applyEvent l e) es

/-- Model of JavaScript `String.prototype.startsWith`. -/
def jsStartsWith (s pre : String) : Bool :=
  pre.data.isPrefixOf s.data

/-- Character-list trimming: drop whitespace from both ends. -/
def jsTrimList (l : List Char) : List Char :=
  ((l.dropWhile Char.isWhitespace).reverse.dropWhile Char.isWhitespace).reverse

/-- Model of JavaScript `String.prototype.trim`. -/
def jsTrim (s : String) : String :=
  ⟨jsTrimList s.data⟩

/-- URL normalization from `handleAddBookmark`: the `normalizedUrl`
ternary checks `url.startsWith` on the raw, untrimmed input and prefixes
`https://` when neither scheme test passes. -/
def normalizeUrl (url : String) : String :=
  if jsStartsWith url "http://" || jsStartsWith url "https://" then url
  else "https://" ++ url

/-- Relevant component state of `BookmarkApp`: the authenticated user
(`user` state, modelled by its id), the in-memory `bookmarks` list, the
two input fields, the user-visible `error` message, the `saving` flag
and whether a realtime channel is currently held in
`realtimeChannelRef`. -/
structure AppState where
  user : Option String
  bookmarks : List Bookmark
  title : String
  url : String
  error : Option String
  saving : Bool
  channelOpen : Bool
deriving DecidableEq

/-- Row sent by the `supabase.from("bookmarks").insert({...})` call. -/
structure InsertRequest where
  title : String
  url : String
  user_id : String
deriving DecidableEq

/-- The `handleAddBookmark` command handler.  Returns the state after
the handler finishes and the insert request it issued, if any.
`insertFails` tells whether the backend answers the issued insert with
an error. -/
def handleAddBookmark (s : AppState) (insertFails : Bool) :
    AppState × Option InsertRequest :=
  match s.user with
  | none => (s, none)
  | some uid =>
    if jsTrim s.url = "" ∨ jsTrim s.title = "" then
      ({ s with error := some "Please provide both a title and URL" }, none)
    else
      let normalizedUrl := normalizeUrl s.url
      let req : InsertRequest :=
        { title := jsTrim s.title, url := jsTrim normalizedUrl, user_id := uid }
      if insertFails then
        ({ s with saving := false, error := some "Failed to save bookmark" }, some req)
      else
        ({ s with saving := false, error := none, title := "", url := "" }, some req)

/-- The `loadBookmarks` snapshot loader.  `resp` is the backend answer:
an error, or `data` (possibly null, modelled by `Option`).  On error the
list is untouched and the error message is set; on success the whole
list is replaced by `data ?? []`. -/
def loadBookmarks (s : AppState) (resp : Except Unit (Option (List Bookmark))) :
    AppState :=
  match resp with
  | .error _ => { s with error := some "Failed to load bookmarks" }
  | .ok data => { s with error := none, bookmarks := data.getD [] }

/-- Primitive operations performed by the absent branch of the
`onAuthStateChange` listener, after it has recorded the absent
session. -/
inductive AbsentAction where
  | clearBookmarks
  | teardownFeed
deriving DecidableEq, BEq

/-- Operation trace of the absent branch, in source order: the listener
runs `setBookmarks([])` first and `teardownRealtime()` second. -/
def absentBranchTrace : List AbsentAction :=
  [AbsentAction.clearBookmarks, AbsentAction.teardownFeed]

/-- Effect of one absent-branch operation.  `teardownFeed` models
`teardownRealtime`: it releases the channel only when one is held. -/
def applyAbsentAction (s : AppState) : AbsentAction → AppState
  | .clearBookmarks => { s with bookmarks := [] }
  | .teardownFeed => if s.channelOpen then { s with channelOpen := false } else s

/-- The whole absent branch of `onAuthStateChange`: record the absent
session, then run the traced operations in order. -/
def onAuthAbsent (s : AppState) : AppState :=
  absentBranchTrace.foldl applyAbsentAction { s with user := none }

/-- Decides whether some occurrence of `a` appears strictly before an
occurrence of `b` in the trace. -/
def precedes (a b : AbsentAction) : List AbsentAction → Bool
  | [] => false
  | x :: xs => (x == a && xs.contains b) || precedes a b xs

/-- The `sortedBookmarks` comparator as a relation: `a` may come before
`b` when `b`'s creation time is at most `a`'s (descending order). -/
def afterOrEq (a b : Bookmark) : Prop :=
  b.created_at ≤ a.created_at

instance : DecidableRel afterOrEq := fun a b =>
  inferInstanceAs (Decidable (b.created_at ≤ a.created_at))

instance : IsTotal Bookmark afterOrEq :=
  ⟨fun a b => le_total b.created_at a.created_at⟩

instance : IsTrans Bookmark afterOrEq :=
  ⟨fun _ _ _ h1 h2 => le_trans h2 h1⟩

/-- The `sortedBookmarks` view projection: a stable sort of the
in-memory list by creation time, newest first (the JS comparator
`new Date(b.created_at).getTime() - new Date(a.created_at).getTime()`
together with the stability of `Array.prototype.sort`). -/
def sortedBookmarks (l : List Bookmark) : List Bookmark :=
  l.insertionSort afterOrEq

theorem findId_cons (x : Bookmark) (t : List Bookmark) (k : String) :
    findId (x :: t) k = if x.id == k then some x else findId t k := by
  cases h : (x.id == k) <;> simp [findId, List.find?_cons, h]

theorem findId_eq_none {l : List Bookmark} {k : String} :
    findId l k = none ↔ k ∉ ids l := by
  simp only [findId, List.find?_eq_none, ids, List.mem_map]
  constructor
  · rintro h ⟨b, hb, rfl⟩
    exact h b hb (by simp)
  · intro h b hb hbk
    exact h ⟨b, hb, by simpa using hbk⟩

theorem mem_iff_findId {l : List Bookmark} (h : (ids l).Nodup) (b : Bookmark) :
    b ∈ l ↔ findId l b.id = some b := by
  induction l with
  | nil => simp [findId]
  | cons x t ih =>
    simp only [ids, List.map_cons, List.nodup_cons, List.mem_map] at h
    rw [findId_cons]
    constructor
    · intro hb
      rcases List.mem_cons.mp hb with rfl | hbt
      · simp
      · have hxb : x.id ≠ b.id := fun he => h.1 ⟨b, hbt, he.symm⟩
        rw [if_neg (by simpa using hxb)]
        exact (ih h.2 |>.mp hbt)
    · intro hf
      by_cases hx : (x.id == b.id) = true
      · rw [if_pos hx] at hf
        exact (Option.some_inj.mp hf) ▸ List.mem_cons_self x t
      · rw [if_neg (by simpa using hx)] at hf
        exact List.mem_cons_of_mem x ((ih h.2).mpr hf)

theorem findId_append_fresh {l : List Bookmark} {n : Bookmark}
    (h : findId l n.id = none) (k : String) :
    findId (l ++ [n]) k = if k = n.id then some n else findId l k := by
  induction l with
  | nil =>
    by_cases hk : k = n.id
    · simp [findId, List.find?_cons, hk]
    · have hnk : (n.id == k) = false := by
        simp only [beq_eq_false_iff_ne, ne_eq]
        exact fun he => hk he.symm
      simp [findId, List.find?_cons, hk, hnk]
  | cons x t ih =>
    rw [findId_cons] at h
    by_cases hx : (x.id == n.id) = true
    · rw [if_pos hx] at h; exact absurd h (by simp)
    · rw [if_neg hx] at h
      rw [List.cons_append, findId_cons, findId_cons, ih h]
      by_cases hk : k = n.id
      · subst hk
        rw [if_neg hx, if_pos rfl, if_pos rfl]
      · rw [if_neg hk, if_neg hk]

theorem findId_filter_ne {l : List Bookmark} {i : String} (k : String) :
    findId (l.filter (fun b => b.id != i)) k
      = if k = i then none else findId l k := by
  induction l with
  | nil => simp [findId]
  | cons x t ih =>
    by_cases hx : (x.id == i) = true
    · have hxf : ¬ ((x.id != i) = true) := by simp [bne, hx]
      rw [List.filter_cons, if_neg hxf, ih, findId_cons]
      by_cases hk : k = i
      · simp [hk]
      · rw [if_neg hk, if_neg hk]
        have hxk : (x.id == k) = false := by
          have hxi : x.id = i := by simpa using hx
          simp only [hxi, beq_eq_false_iff_ne, ne_eq]
          exact fun he => hk he.symm
        rw [if_neg (by simp [hxk])]
    · have hxt : (x.id != i) = true := by
        simp only [bne_iff_ne, ne_eq]
        simpa using hx
      rw [List.filter_cons, if_pos hxt, findId_cons, ih, findId_cons]
      by_cases hk : k = i
      · subst hk
        have hxk : (x.id == k) = false := by simpa using hx
        simp [hxk]
      · rw [if_neg hk, if_neg hk]



theorem findId_update_ne {l : List Bookmark} {n : Bookmark} {k : String}
    (hk : k ≠ n.id) :
    findId (l.map (fun b => if b.id == n.id then n else b)) k = findId l k := by
  induction l with
  | nil => rfl
  | cons x t ih =>
    rw [List.map_cons, findId_cons, findId_cons, ih]
    by_cases hx : (x.id == n.id) = true
    · have hxi : x.id = n.id := by simpa using hx
      have h1 : ¬ ((n.id == k) = true) := by
        simp only [beq_iff_eq]
        exact fun he => hk he.symm
      have h2 : ¬ ((x.id == k) = true) := by
        simp only [beq_iff_eq, hxi]
        exact fun he => hk he.symm
      rw [if_pos hx, if_neg h1, if_neg h2]
    · rw [if_neg hx]

theorem findId_update_eq {l : List Bookmark} {n b0 : Bookmark}
    (h : findId l n.id = some b0) :
    findId (l.map (fun b => if b.id == n.id then n else b)) n.id = some n := by
  induction l with
  | nil => simp [findId] at h
  | cons x t ih =>
    rw [findId_cons] at h
    rw [List.map_cons, findId_cons]
    by_cases hx : (x.id == n.id) = true
    · rw [if_pos hx]
      simp
    · rw [if_neg hx] at h
      rw [if_neg hx, if_neg hx]
      exact ih h

theorem map_update_of_absent {l : List Bookmark} {n : Bookmark}
    (h : findId l n.id = none) :
    l.map (fun b => if b.id == n.id then n else b) = l := by
  induction l with
  | nil => rfl
  | cons x t ih =>
    rw [findId_cons] at h
    by_cases hx : (x.id == n.id) = true
    · rw [if_pos hx] at h
      exact absurd h (by simp)
    · rw [if_neg hx] at h
      rw [List.map_cons, if_neg hx, ih h]

theorem ids_append (l : List Bookmark) (n : Bookmark) :
    ids (l ++ [n]) = ids l ++ [n.id] := by
  simp [ids]

theorem ids_update (l : List Bookmark) (n : Bookmark) :
    ids (l.map (fun b => if b.id == n.id then n else b)) = ids l := by
  induction l with
  | nil => rfl
  | cons x t ih =>
    simp only [ids, List.map_cons] at ih ⊢
    rw [ih]
    by_cases hx : (x.id == n.id) = true
    · have hxi : x.id = n.id := by simpa using hx
      rw [if_pos hx, hxi]
    · rw [if_neg hx]

theorem nodup_ids_filter {l : List Bookmark} (p : Bookmark → Bool)
    (h : (ids l).Nodup) : (ids (l.filter p)).Nodup :=
  h.sublist ((List.filter_sublist l).map Bookmark.id)

theorem nodup_ids_append_fresh {l : List Bookmark} {n : Bookmark}
    (h : (ids l).Nodup) (hn : n.id ∉ ids l) : (ids (l ++ [n])).Nodup := by
  rw [ids_append]
  simp [List.nodup_append, h, hn]

theorem step_sim {l : List Bookmark} {e : FeedEvent}
    (hn : (ids l).Nodup) (hg : evGuard l e = true) :
    (ids (applyEvent l e)).Nodup ∧
      ∀ k, findId (applyEvent l e) k = logStep (findId l) e k := by
  cases e with
  | insert n =>
    have habs : findId l n.id = none := by
      simpa [evGuard, Option.isNone_iff_eq_none] using hg
    refine ⟨nodup_ids_append_fresh hn (findId_eq_none.mp habs), fun k => ?_⟩
    rw [show applyEvent l (.insert n) = l ++ [n] from rfl, findId_append_fresh habs k]
    rfl
  | update n =>
    constructor
    · show (ids (l.map fun b => if b.id == n.id then n else b)).Nodup
      rw [ids_update]
      exact hn
    · intro k
      show findId (l.map fun b => if b.id == n.id then n else b) k
        = logStep (findId l) (.update n) k
      cases h : findId l n.id with
      | none =>
        rw [map_update_of_absent h]
        simp only [logStep, h]
      | some b0 =>
        simp only [logStep, h]
        by_cases hk : k = n.id
        · subst hk
          rw [findId_update_eq h, if_pos rfl]
        · rw [findId_update_ne hk, if_neg hk]
  | delete i =>
    constructor
    · show (ids (l.filter fun b => b.id != i)).Nodup
      exact nodup_ids_filter _ hn
    · intro k
      show findId (l.filter fun b => b.id != i) k = logStep (findId l) (.delete i) k
      rw [findId_filter_ne k]
      rfl

theorem sim_trace : ∀ (es : List FeedEvent) (l : List Bookmark),
    (ids l).Nodup → freshInserts l es = true →
    (ids (applyEvents l es)).Nodup ∧
      ∀ k, findId (applyEvents l es) k = logApply (findId l) es k := by
  intro es
  induction es with
  | nil => exact fun l hn _ => ⟨hn, fun k => rfl⟩
  | cons e es ih =>
    intro l hn hf
    rw [freshInserts, Bool.and_eq_true] at hf
    obtain ⟨hg, hf'⟩ := hf
    obtain ⟨hn', hstep⟩ := step_sim hn hg
    obtain ⟨hn'', hrest⟩ := ih (applyEvent l e) hn' hf'
    have hmap : findId (applyEvent l e) = logStep (findId l) e := funext hstep
    refine ⟨hn'', fun k => ?_⟩
    show findId (applyEvents (applyEvent l e) es) k
      = logApply (logStep (findId l) e) es k
    rw [← hmap]
    exact hrest k

/-- Concrete bookmark fixture with identifier "1" and the earlier
creation time. -/
def bm1 : Bookmark :=
  { id := "1", url := "https://a.example", title := "a", created_at := 1 }

/-- Concrete bookmark fixture with identifier "2" and the later
creation time. -/
def bm2 : Bookmark :=
  { id := "2", url := "https://b.example", title := "b", created_at := 2 }

/-- Concrete state fixture: authenticated user, whitespace-only title,
valid URL. -/
def stWs : AppState :=
  { user := some "u1", bookmarks := [bm1], title := "  ",
    url := "https://example.com", error := none, saving := false,
    channelOpen := true }

/-- Concrete state fixture: no authenticated user, non-trivial fields. -/
def stNoUser : AppState :=
  { user := none, bookmarks := [bm1], title := "t", url := "example.com",
    error := none, saving := false, channelOpen := false }

/-- Claim C1 is false on the code: for a list already holding the
identifier, the INSERT handler appends the payload while the UPDATE
handler replaces it in place, so the two results differ. -/
theorem C1_counterexample :
    bm1.id ∈ ids [bm1] ∧
      applyEvent [bm1] (.insert bm1) ≠ applyEvent [bm1] (.update bm1) := by
  decide

/-- Claim C1 (amended): the INSERT handler appends the event payload to
the end of the list unconditionally; when the identifier is already
present this is not equivalent to the update event with the same
payload, whose result is one element shorter. -/
theorem C1_insert_appends (l : List Bookmark) (n : Bookmark) :
    applyEvent l (.insert n) = l ++ [n] ∧
      (n.id ∈ ids l → applyEvent l (.insert n) ≠ applyEvent l (.update n)) := by
  refine ⟨rfl, fun _ hne => ?_⟩
  have hlen : (applyEvent l (.insert n)).length = l.length + 1 := by
    simp [applyEvent]
  have hlen2 : (applyEvent l (.update n)).length = l.length := by
    simp [applyEvent]
  rw [hne, hlen2] at hlen
  omega

/-- Witness for the amended claim C1 at a concrete duplicate insert. -/
theorem C1_insert_appends_witness :
    bm1.id ∈ ids [bm1] ∧
      applyEvent [bm1] (FeedEvent.insert bm1) ≠ applyEvent [bm1] (FeedEvent.update bm1) :=
  ⟨by decide, (C1_insert_appends [bm1] bm1).2 (by decide)⟩

/-- Claim C2 is false on the code: a single update event for an absent
identifier is a no-op on the list, while the literal last-write-wins
map interpretation of the log records the written value. -/
theorem C2_counterexample :
    ¬ (bm1 ∈ applyEvents [] [.update bm1] ↔
        lwwLog (findId []) [.update bm1] bm1.id = some bm1) := by
  decide

/-- Claim C2 (amended): for an initial list with pairwise-distinct
identifiers and a trace in which every insert event carries an
identifier absent at the moment it is applied, the final list contains
exactly the records of the keyed-map interpretation of the log in which
insert sets its key, update sets its key only when present, and delete
removes its key. -/
theorem C2_log_semantics (l0 : List Bookmark) (es : List FeedEvent)
    (hn : (ids l0).Nodup) (hf : freshInserts l0 es = true) (b : Bookmark) :
    b ∈ applyEvents l0 es ↔ logApply (findId l0) es b.id = some b := by
  obtain ⟨hn2, hsim⟩ := sim_trace es l0 hn hf
  rw [mem_iff_findId hn2 b, hsim b.id]

/-- Witness for the amended claim C2 on a concrete three-event trace. -/
theorem C2_log_semantics_witness :
    (ids ([] : List Bookmark)).Nodup ∧
      freshInserts [] [.insert bm1, .insert bm2, .delete "1"] = true ∧
      (bm2 ∈ applyEvents [] [.insert bm1, .insert bm2, .delete "1"] ↔
        logApply (findId []) [.insert bm1, .insert bm2, .delete "1"] bm2.id
          = some bm2) :=
  ⟨by decide, by decide,
    C2_log_semantics [] [.insert bm1, .insert bm2, .delete "1"]
      (by decide) (by decide) bm2⟩

/-- Claim C3 is false on the code: a duplicate insert event breaks
identifier uniqueness. -/
theorem C3_counterexample :
    (ids [bm1]).Nodup ∧ ¬ (ids (applyEvent [bm1] (.insert bm1))).Nodup := by
  decide

/-- Claim C3 (amended): update events, delete events, and snapshot
replacement by a load whose returned records have distinct identifiers
all preserve identifier uniqueness; an insert event preserves it exactly
when the inserted identifier is not already present. -/
theorem C3_nodup_preserved :
    (∀ l : List Bookmark, (ids l).Nodup →
      (∀ n : Bookmark, n.id ∉ ids l → (ids (applyEvent l (.insert n))).Nodup) ∧
      (∀ n : Bookmark, (ids (applyEvent l (.update n))).Nodup) ∧
      (∀ i : String, (ids (applyEvent l (.delete i))).Nodup)) ∧
    (∀ (s : AppState) (d : List Bookmark), (ids d).Nodup →
      (ids (loadBookmarks s (.ok (some d))).bookmarks).Nodup) := by
  constructor
  · intro l hn
    refine ⟨fun n hni => nodup_ids_append_fresh hn hni, fun n => ?_, fun i => ?_⟩
    · show (ids (l.map fun b => if b.id == n.id then n else b)).Nodup
      rw [ids_update]
      exact hn
    · exact nodup_ids_filter _ hn
  · intro s d hd
    exact hd

/-- Witness for the amended claim C3 at a concrete fresh insert. -/
theorem C3_nodup_preserved_witness :
    (ids [bm1]).Nodup ∧ bm2.id ∉ ids [bm1] ∧
      (ids (applyEvent [bm1] (FeedEvent.insert bm2))).Nodup :=
  ⟨by decide, by decide,
    (C3_nodup_preserved.1 [bm1] (by decide)).1 bm2 (by decide)⟩

/-- Claim C4: an update or delete event whose identifier is absent from
the list leaves the list exactly unchanged. -/
theorem C4_absent_update_delete_noop (l : List Bookmark) :
    (∀ n : Bookmark, n.id ∉ ids l → applyEvent l (.update n) = l) ∧
    (∀ i : String, i ∉ ids l → applyEvent l (.delete i) = l) := by
  constructor
  · intro n hn
    show l.map (fun b => if b.id == n.id then n else b) = l
    exact map_update_of_absent (findId_eq_none.mpr hn)
  · intro i hi
    show l.filter (fun b => b.id != i) = l
    refine List.filter_eq_self.mpr fun b hb => ?_
    simp only [bne_iff_ne, ne_eq]
    intro he
    exact hi (by rw [← he]; exact List.mem_map_of_mem Bookmark.id hb)

/-- Witness for claim C4 at a concrete absent update and delete. -/
theorem C4_absent_update_delete_noop_witness :
    bm2.id ∉ ids [bm1] ∧ applyEvent [bm1] (FeedEvent.update bm2) = [bm1] ∧
      ("9" : String) ∉ ids [bm1] ∧ applyEvent [bm1] (FeedEvent.delete "9") = [bm1] :=
  ⟨by decide, (C4_absent_update_delete_noop [bm1]).1 bm2 (by decide),
    by decide, (C4_absent_update_delete_noop [bm1]).2 "9" (by decide)⟩

/-- Claim C5 is false on the code: for an input with a leading space the
trimmed URL starts with `http://`, yet normalization still prepends
`https://` because the scheme test runs on the raw, untrimmed input. -/
theorem C5_counterexample :
    jsStartsWith (jsTrim " http://example.com") "http://" = true ∧
      normalizeUrl " http://example.com" ≠ " http://example.com" := by
  decide

/-- Claim C5 (amended): normalization prefixes `https://` exactly when
the raw, untrimmed URL starts with neither `http://` nor `https://`,
and leaves the URL unchanged otherwise; in particular
`example.com/page` normalizes to `https://example.com/page` and
`http://example.com` is unchanged. -/
theorem C5_normalization (url : String) :
    (normalizeUrl url = url ↔
      (jsStartsWith url "http://" = true ∨ jsStartsWith url "https://" = true)) ∧
    (¬ (jsStartsWith url "http://" = true ∨ jsStartsWith url "https://" = true) →
      normalizeUrl url = "https://" ++ url) ∧
    normalizeUrl "example.com/page" = "https://example.com/page" ∧
    normalizeUrl "http://example.com" = "http://example.com" := by
  have happNe : "https://" ++ url ≠ url := by
    intro he
    have hlen : ("https://" ++ url).length = url.length := congrArg String.length he
    rw [String.length_append] at hlen
    have h8 : ("https://" : String).length = 8 := by decide
    omega
  by_cases hc : jsStartsWith url "http://" = true ∨ jsStartsWith url "https://" = true
  · have hb : (jsStartsWith url "http://" || jsStartsWith url "https://") = true :=
      Bool.or_eq_true _ _ |>.mpr hc
    have hno : normalizeUrl url = url := by
      unfold normalizeUrl
      rw [if_pos hb]
    exact ⟨⟨fun _ => hc, fun _ => hno⟩, fun hn => absurd hc hn, by decide, by decide⟩
  · have hb : ¬ ((jsStartsWith url "http://" || jsStartsWith url "https://") = true) :=
      fun h => hc ((Bool.or_eq_true _ _).mp h)
    have hpre : normalizeUrl url = "https://" ++ url := by
      unfold normalizeUrl
      rw [if_neg hb]
    exact ⟨⟨fun he => absurd (hpre.symm.trans he) happNe, fun h => absurd h hc⟩,
      fun _ => hpre, by decide, by decide⟩

/-- Witness for the amended claim C5 at a scheme-less concrete URL. -/
theorem C5_normalization_witness :
    ¬ (jsStartsWith "example.com" "http://" = true ∨
        jsStartsWith "example.com" "https://" = true) ∧
      normalizeUrl "example.com" = "https://" ++ "example.com" :=
  ⟨by decide, (C5_normalization "example.com").2.1 (by decide)⟩

/-- Claim C6: with an authenticated user, a title or URL that is empty
after trimming makes create set the validation error message and stop:
no insert request is issued and every other piece of state — list,
input fields, saving flag — is exactly unchanged. -/
theorem C6_validation (s : AppState) (uid : String) (fails : Bool)
    (hu : s.user = some uid)
    (hv : jsTrim s.title = "" ∨ jsTrim s.url = "") :
    handleAddBookmark s fails =
      ({ s with error := some "Please provide both a title and URL" }, none) := by
  simp only [handleAddBookmark, hu]
  rw [if_pos hv.symm]

/-- Witness for claim C6: whitespace-only title, valid URL. -/
theorem C6_validation_witness :
    stWs.user = some "u1" ∧ jsTrim stWs.title = "" ∧
      handleAddBookmark stWs false =
        ({ stWs with error := some "Please provide both a title and URL" }, none) :=
  ⟨rfl, by decide, C6_validation stWs "u1" false rfl (Or.inl (by decide))⟩

/-- Claim C7: a failed snapshot load leaves the in-memory list exactly
unchanged and sets the user-visible error message; a successful load
replaces the whole list with the returned records (null data becomes the
empty list). -/
theorem C7_load_spec (s : AppState) (d : List Bookmark) :
    (loadBookmarks s (.error ())).bookmarks = s.bookmarks ∧
    (loadBookmarks s (.error ())).error = some "Failed to load bookmarks" ∧
    (loadBookmarks s (.ok (some d))).bookmarks = d ∧
    (loadBookmarks s (.ok none)).bookmarks = [] :=
  ⟨rfl, rfl, rfl, rfl⟩

/-- Claim C8 is false on the code: in the absent branch of
`onAuthStateChange` the teardown does not precede the list clearing —
the listener runs `setBookmarks([])` first and `teardownRealtime()`
second. -/
theorem C8_counterexample :
    ¬ (precedes AbsentAction.teardownFeed AbsentAction.clearBookmarks
        absentBranchTrace = true) := by
  decide

/-- Claim C8 (amended): every transition to absent clears the in-memory
list first and tears the change feed down second; after the transition
the list is empty, the feed subscription is closed and the session is
absent, regardless of prior state. -/
theorem C8_absent_transition (s : AppState) :
    (onAuthAbsent s).bookmarks = [] ∧
    (onAuthAbsent s).channelOpen = false ∧
    (onAuthAbsent s).user = none ∧
    precedes AbsentAction.clearBookmarks AbsentAction.teardownFeed
      absentBranchTrace = true := by
  cases hc : s.channelOpen <;>
    simp [onAuthAbsent, absentBranchTrace, applyAbsentAction, precedes, hc] <;>
    exact ⟨by decide, by decide⟩

/-- Claim C9: the displayed view is a permutation of the in-memory list
sorted by creation time descending (newest first); the two spec
scenarios hold concretely. -/
theorem C9_sorted_view :
    (∀ l : List Bookmark,
      List.Perm (sortedBookmarks l) l ∧
        List.Sorted afterOrEq (sortedBookmarks l)) ∧
    sortedBookmarks [bm1, bm2] = [bm2, bm1] ∧
    sortedBookmarks (applyEvent [bm2, bm1] (.delete "2")) = [bm1] := by
  refine ⟨fun l => ⟨List.perm_insertionSort afterOrEq l,
    List.sorted_insertionSort afterOrEq l⟩, by decide, by decide⟩

/-- Claim C10: with no authenticated user, create returns immediately:
no request is issued, no error is set, and the state is exactly
unchanged. -/
theorem C10_no_user_noop (s : AppState) (fails : Bool) (hu : s.user = none) :
    handleAddBookmark s fails = (s, none) := by
  simp only [handleAddBookmark, hu]

/-- Witness for claim C10 at a concrete signed-out state. -/
theorem C10_no_user_noop_witness :
    stNoUser.user = none ∧ handleAddBookmark stNoUser false = (stNoUser, none) :=
  ⟨rfl, C10_no_user_noop stNoUser false rfl⟩

end SmartBookmark
